import Mathlib

/-!
Verification of the terrainreader pipeline (terrain_converter.py and
verify_terrain.py) against its natural-language specification.

The embedding is shallow: latitude/longitude values are rationals, rasters
are dimensioned grids of integer elevations, the filesystem and the zip
library are abstracted as boolean oracles, and every function original to
the repository (tile naming, tile lookup, member selection, extraction,
downsampling, nodata filtering, coordinate formatting, folder naming) is
translated directly from the Python source.
-/

namespace Terrain

/-! ## Decimal digit strings (Python integer and zero-padded formatting) -/

/-- The character for one decimal digit (0 ≤ n ≤ 9). -/
def digitCh (n : Nat) : Char := Char.ofNat (48 + n)

/-- Decimal digits of a natural number below the fuel bound, most
significant digit first.  Fuel-based so that the kernel can evaluate it. -/
def natDigitsAux : Nat → Nat → List Char
  | 0, _ => []
  | fuel + 1, n =>
    if n < 10 then [digitCh n]
    else natDigitsAux fuel (n / 10) ++ [digitCh (n % 10)]

/-- Decimal digits of a natural number, most significant digit first. -/
def natDigits (n : Nat) : List Char := natDigitsAux (n + 1) n

/-- Decimal string of a natural number (Python str of an int). -/
def natStr (n : Nat) : String := String.mk (natDigits n)

/-- Left-pad a string with zeros to width k (Python zero-padded field). -/
def padZeros (k : Nat) (s : String) : String :=
  String.mk (List.replicate (k - s.data.length) '0' ++ s.data)

/-! ## get_tile_name (terrain_converter.py, lines 39-42) -/

/-- Function get_tile_name from terrain_converter.py: hemisphere letters from the
signs of the inputs, then the absolute value of the floor of each input,
zero-padded to 2 digits (latitude) and 3 digits (longitude). -/
def get_tile_name (lat lon : ℚ) : String :=
  let ns := if 0 ≤ lat then "N" else "S"
  let ew := if 0 ≤ lon then "E" else "W"
  ns ++ padZeros 2 (natStr ⌊lat⌋.natAbs) ++ ew ++ padZeros 3 (natStr ⌊lon⌋.natAbs)

/-- The SRTM name of the 1°×1° tile whose southwest corner is the integer
point (cLat, cLon): hemisphere letters from the corner's signs, absolute
values zero-padded to 2 (latitude) and 3 (longitude) digits. -/
def tileNameOfCell (cLat cLon : ℤ) : String :=
  (if 0 ≤ cLat then "N" else "S") ++ padZeros 2 (natStr cLat.natAbs) ++
    (if 0 ≤ cLon then "E" else "W") ++ padZeros 3 (natStr cLon.natAbs)

/-! ## format_coord_val (terrain_converter.py, lines 61-73) -/

/-- Round a rational to the nearest integer, ties to even: the rounding
of Python's fixed-point float formatting. -/
def rndHalfEven (x : ℚ) : ℤ :=
  if x - ⌊x⌋ < 1/2 then ⌊x⌋
  else if (1/2 : ℚ) < x - ⌊x⌋ then ⌊x⌋ + 1
  else if ⌊x⌋ % 2 = 0 then ⌊x⌋ else ⌊x⌋ + 1

/-- Python two-decimal fixed-point formatting of a nonnegative value,
that is, the value scaled by 100
and rounded to the nearest integer (ties to even), rendered as integer
part, a dot, and exactly two fractional digits. -/
def twoDecStr (q : ℚ) : String :=
  natStr ((rndHalfEven (100 * q)).toNat / 100) ++ "." ++
    padZeros 2 (natStr ((rndHalfEven (100 * q)).toNat % 100))

/-- The hemisphere letter chosen by format_coord_val: N/S by the sign of a
latitude, E/W by the sign of a longitude. -/
def dirStr (val : ℚ) (is_lat : Bool) : String :=
  if is_lat then (if 0 ≤ val then "N" else "S")
  else (if 0 ≤ val then "E" else "W")

/-- Function format_coord_val from terrain_converter.py: hemisphere letter, then
the absolute value as a plain integer when it is whole and as a two-decimal
fixed-point rendering otherwise. -/
def format_coord_val (val : ℚ) (is_lat : Bool) : String :=
  if (|val|).den = 1 then dirStr val is_lat ++ natStr (|val|).num.toNat
  else dirStr val is_lat ++ twoDecStr (|val|)

/-! ## Clipped raster band, downsampling and nodata filter
    (terrain_converter.py, main, lines 216-268) -/

/-- A single-band raster: the first band of the clipped mosaic
(`out_image[0]` in the source), as a dimensioned grid of elevations. -/
structure Raster where
  height : Nat
  width : Nat
  val : Nat → Nat → Int

/-- The SRTM nodata sentinel filtered out at line 236 of the source. -/
def nodataVal : Int := -32768

/-- Length of a NumPy slice `[::s]` over an axis of length n (for s > 0):
the number of kept indices 0, s, 2s, ... below n. -/
def downLen (n s : Nat) : Nat := (n + s - 1) / s

/-- The flattened row/column/value samples produced by main's
"Converting to Points" step: when step > 1, the raster is strided as
`data[::step, ::step]` and the row/column index arrays are multiplied
back by step; otherwise every cell is taken.  Row-major flattening. -/
def samplesList (r : Raster) (step : Nat) : List (Nat × Nat × Int) :=
  if 1 < step then
    (List.range (downLen r.height step)).flatMap (fun i =>
      (List.range (downLen r.width step)).map (fun j =>
        (i * step, j * step, r.val (i * step) (j * step))))
  else
    (List.range r.height).flatMap (fun i =>
      (List.range r.width).map (fun j => (i, j, r.val i j)))

/-- The samples surviving the nodata filter
(`valid_mask = elevations_flat != -32768`). -/
def validPoints (r : Raster) (step : Nat) : List (Nat × Nat × Int) :=
  (samplesList r step).filter (fun p => p.2.2 != nodataVal)

/-- One record of the produced point file: a geometry built by the
coordinate transform from the (pre-downsampling) row/column indices, the
elevation attribute, and the constant 'city' attribute. -/
structure OutPoint (α : Type) where
  x : α
  y : α
  elevation : Int
  city : String

deriving instance DecidableEq for OutPoint

/-- The formatted minimum corner (`name_str` at line 263 of the source,
recomputed as `min_str` at line 273). -/
def corner_str (lat lon : ℚ) : String :=
  format_coord_val lat true ++ format_coord_val lon false

/-- The rows of the produced GeoDataFrame: the coordinate transform
(`rasterio.transform.xy`, abstracted as `coordOf`) applied to each
surviving row/column pair, with its elevation and the constant city
label. -/
def mkPoints {α : Type} (coordOf : Nat → Nat → α × α) (r : Raster) (step : Nat)
    (minLat minLon : ℚ) : List (OutPoint α) :=
  (validPoints r step).map (fun p =>
    ⟨(coordOf p.1 p.2.1).1, (coordOf p.1 p.2.1).2, p.2.2, corner_str minLat minLon⟩)

/-! ## Tile discovery (terrain_converter.py, main, lines 90-106) -/

/-- Python range from a to b inclusive over integers, as a list. -/
def intRange (a b : ℤ) : List ℤ :=
  (List.range (b + 1 - a).toNat).map (fun k : ℕ => a + (k : ℤ))

/-- The integer lat/lon cells enumerated by main's nested tile-search
loops: latitudes floor(min_lat)..floor(max_lat) outer, longitudes
floor(min_lon)..floor(max_lon) inner. -/
def tileCells (minLat maxLat minLon maxLon : ℚ) : List (ℤ × ℤ) :=
  (intRange ⌊minLat⌋ ⌊maxLat⌋).flatMap (fun la =>
    (intRange ⌊minLon⌋ ⌊maxLon⌋).map (fun lo => (la, lo)))

/-- The 1-degree interval [k, k + 1) meets the closed interval [lo, hi]:
some coordinate of the box falls in the cell of integer index k. -/
def cellMeetsBox (lo hi : ℚ) (k : ℤ) : Prop :=
  ∃ x : ℚ, lo ≤ x ∧ x ≤ hi ∧ ⌊x⌋ = k

/-- Latitude-major lexicographic order on cells. -/
def cellBefore (p q : ℤ × ℤ) : Prop :=
  p.1 < q.1 ∨ (p.1 = q.1 ∧ p.2 < q.2)

/-! ## Zip member selection (terrain_converter.py, main, lines 108-125) -/

/-- Whether the first list is a leading segment of the second. -/
def leadMatch : List Char → List Char → Bool
  | [], _ => true
  | _ :: _, [] => false
  | a :: as, b :: bs => a == b && leadMatch as bs

/-- Whether the first list is a trailing segment of the second. -/
def tailMatch (pat l : List Char) : Bool := leadMatch pat.reverse l.reverse

/-- Whether pat occurs contiguously anywhere in the second list. -/
def subMatch (pat : List Char) : List Char → Bool
  | [] => leadMatch pat []
  | c :: t => leadMatch pat (c :: t) || subMatch pat t

/-- Python os.path.basename: the part of a path after its last slash. -/
def baseName (s : String) : String :=
  String.mk ((s.data.reverse.takeWhile (fun c => c != '/')).reverse)

/-- Whether the basename starts with the macOS metadata marker dot
underscore. -/
def isMetaFile (f : String) : Bool := leadMatch [ '.', '_' ] (baseName f).data

/-- Python endswith check for .hgt or .tif from the candidate filter. -/
def isElevMember (f : String) : Bool :=
  tailMatch [ '.', 'h', 'g', 't' ] f.data || tailMatch [ '.', 't', 'i', 'f' ] f.data

/-- Python endswith check for .num from the metadata-only check. -/
def isNumMember (f : String) : Bool := tailMatch [ '.', 'n', 'u', 'm' ] f.data

/-- The data member main extracts from an archive's name list: the first
name ending in .hgt or .tif whose basename is not a '._' metadata file;
none otherwise (in particular when only .num members are present, which
the source reports as "metadata file (.num) but NO elevation data" and
skips). -/
def selectDataMember (all_files : List String) : Option String :=
  ((all_files.filter (fun f => isElevMember f)).filter
    (fun f => !isMetaFile f)).head?

/-! ## find_tile_zip (terrain_converter.py, lines 44-59) -/

/-- ASCII lowercasing of one character (Python lower on paths). -/
def lowerChar (c : Char) : Char :=
  if 'A' ≤ c ∧ c ≤ 'Z' then Char.ofNat (c.toNat + 32) else c

/-- ASCII lowercasing of a string. -/
def lowerStr (s : String) : String := String.mk (s.data.map lowerChar)

/-- Python substring test for .hgt.zip on the lowercased path. -/
def hasHgtZip (f : String) : Bool :=
  subMatch [ '.', 'h', 'g', 't', '.', 'z', 'i', 'p' ] (lowerStr f).data

/-- The glob matches that survive the '._' metadata filter. -/
def nonMetaMatches (globFiles : List String) : List String :=
  globFiles.filter (fun f => !isMetaFile f)

/-- Function find_tile_zip from terrain_converter.py, applied to the recursive
glob's result list: drop '._' metadata files, return None when nothing is
left, otherwise prefer the first match containing '.hgt.zip'
case-insensitively and fall back to the first match. -/
def find_tile_zip (globFiles : List String) : Option String :=
  let files := nonMetaMatches globFiles
  if files.isEmpty then none
  else
    match (files.filter (fun f => hasHgtZip f)).head? with
    | some g => some g
    | none => files.head?

/-! ## Extraction tasks (terrain_converter.py, lines 19-37 and 151-166) -/

/-- One entry of `extraction_tasks`: the argument triple of
extract_tile_task. -/
structure ExtractTask where
  zip_path : String
  target_file : String
  temp_dir : String

/-- Python os.path.join for a directory and a relative member name. -/
def joinPath (d f : String) : String := d ++ "/" ++ f

/-- The effects visible to extract_tile_task, abstracted: whether a path
exists on disk, and whether extracting a member from an archive succeeds
(False models `zipfile` raising). -/
structure ExtractEnv where
  fileExists : String → Bool
  extractOk : String → String → Bool

/-- Function extract_tile_task from terrain_converter.py: return the expected
path immediately when it already exists, else extract and return it, and
return None when the extraction raises. -/
def extract_tile_task (env : ExtractEnv) (t : ExtractTask) : Option String :=
  let expected := joinPath t.temp_dir t.target_file
  if env.fileExists expected then some expected
  else if env.extractOk t.zip_path t.target_file then some expected
  else none

/-- The per-task results list produced by the executor map over the
extraction tasks, in task order. -/
def extractionResults (env : ExtractEnv) (tasks : List ExtractTask) :
    List (Option String) :=
  tasks.map (extract_tile_task env)

/-- The variable src_files_to_mosaic: the non-None per-task results. -/
def srcFilesToMosaic (env : ExtractEnv) (tasks : List ExtractTask) : List String :=
  (extractionResults env tasks).filterMap id

/-- Whether main returns before merging ("Extraction failed. No files to
process."). -/
def abortsBeforeMerge (env : ExtractEnv) (tasks : List ExtractTask) : Bool :=
  (srcFilesToMosaic env tasks).isEmpty

/-- A stateful run of extract_tile_task: its result, the scratch
directory contents afterwards (as the set of existing paths), and whether
the archive was opened. -/
structure RunOutcome where
  result : Option String
  fsAfter : String → Bool
  openedArchive : Bool

/-- Function extract_tile_task with the scratch directory made explicit: the
cache hit touches nothing and never opens the archive; a successful
extraction adds exactly the expected path; a raising extraction yields
None. -/
def extract_tile_task_run (canExtract : String → String → Bool)
    (fs : String → Bool) (t : ExtractTask) : RunOutcome :=
  let expected := joinPath t.temp_dir t.target_file
  if fs expected then ⟨some expected, fs, false⟩
  else if canExtract t.zip_path t.target_file then
    ⟨some expected, fun p => p == expected || fs p, true⟩
  else ⟨none, fs, true⟩

/-! ## Output folder naming (terrain_converter.py, lines 271-277) -/

/-- The folder_name of main's saving step: the formatted minimum corner,
an underscore, and the formatted maximum corner. -/
def folder_name (minLat minLon maxLat maxLon : ℚ) : String :=
  corner_str minLat minLon ++ "_" ++ corner_str maxLat maxLon

/-- The converter's shapefile path relative to the working directory:
output/<folder_name>/terrain.shp. -/
def converterOutShp (minLat minLon maxLat maxLon : ℚ) : String :=
  joinPath (joinPath "output" (folder_name minLat minLon maxLat maxLon)) "terrain.shp"

/-! ## verify_terrain.py, main, lines 95-127 -/

/-- Python int conversion of a rational value: truncation toward zero. -/
def pyTrunc (v : ℚ) : ℤ := if 0 ≤ v then ⌊v⌋ else ⌈v⌉

/-- The `has_decimal` loop of verify_terrain: some bounding value differs
from its integer truncation. -/
def hasDecimalCheck (minLon maxLon minLat maxLat : ℚ) : Bool :=
  [ minLon, maxLon, minLat, maxLat ].any (fun v => decide (v ≠ (pyTrunc v : ℚ)))

/-- The local `format_val` of verify_terrain's has_decimal branch
(lines 106-109). -/
def format_val_newBranch (val : ℚ) (is_lat : Bool) : String :=
  let direction := if is_lat then (if 0 ≤ val then "N" else "S")
    else (if 0 ≤ val then "E" else "W")
  if (|val|).den = 1 then direction ++ natStr (|val|).num.toNat
  else direction ++ twoDecStr (|val|)

/-- The local `format_val` of verify_terrain's fallback branch
(lines 118-121). -/
def format_val_oldBranch (val : ℚ) (is_lat : Bool) : String :=
  let direction := if is_lat then (if 0 ≤ val then "N" else "S")
    else (if 0 ≤ val then "E" else "W")
  if (|val|).den = 1 then direction ++ natStr (|val|).num.toNat
  else direction ++ twoDecStr (|val|)

/-- The folder name verify_terrain reconstructs from the four bounding
coordinates (its argument order: min_lon, max_lon, min_lat, max_lat). -/
def verifyFolderName (minLon maxLon minLat maxLat : ℚ) : String :=
  if hasDecimalCheck minLon maxLon minLat maxLat then
    (format_val_newBranch minLat true ++ format_val_newBranch minLon false) ++ "_" ++
      (format_val_newBranch maxLat true ++ format_val_newBranch maxLon false)
  else
    (format_val_oldBranch minLat true ++ format_val_oldBranch minLon false) ++ "_" ++
      (format_val_oldBranch maxLat true ++ format_val_oldBranch maxLon false)

/-- The target_shp path verify_terrain reconstructs: output, the folder
name, and terrain.shp joined. -/
def verifyTargetShp (minLon maxLon minLat maxLat : ℚ) : String :=
  joinPath (joinPath "output" (verifyFolderName minLon maxLon minLat maxLat)) "terrain.shp"

/-! ## Concrete fixtures used by the witness theorems -/

/-- A 2×2 clipped band with one nodata cell. -/
def rW : Raster := ⟨2, 2, fun i j => if i = 0 ∧ j = 0 then -32768 else 7⟩

/-- A 3×3 band with distinct values. -/
def rW2 : Raster := ⟨3, 3, fun i j => (i : Int) + j⟩

/-- A concrete coordinate transform on indices. -/
def cW : Nat → Nat → Nat × Nat := fun i j => (j, i)

/-- The point rW and cW produce for the cell (0, 1). -/
def ptW : OutPoint Nat := ⟨(cW 0 1).1, (cW 0 1).2, 7, corner_str 0 0⟩

/-- An environment in which nothing exists and every extraction raises. -/
def envW : ExtractEnv := ⟨fun _ => false, fun _ _ => false⟩

/-- A concrete extraction task. -/
def taskW : ExtractTask := ⟨ "earthdata/N37W123.hgt.zip", "N37W123.hgt", "output/temp_tiles" ⟩

/-- A zip oracle for which every extraction succeeds. -/
def ceW : String → String → Bool := fun _ _ => true

/-- An empty scratch directory. -/
def fsW : String → Bool := fun _ => false

/-- The scratch directory after taskW's extraction into fsW. -/
def fs1W : String → Bool :=
  fun p => p == joinPath taskW.temp_dir taskW.target_file || fsW p

/-- A concrete glob result: a metadata file, a non-elevation archive and
an elevation archive for the same tile. -/
def glW : List String :=
  [ "earthdata/._N37W123.SRTMGL1.hgt.zip",
    "earthdata/N37W123.SRTMGL1.2.jp2.zip",
    "earthdata/N37W123.SRTMGL1.hgt.zip" ]

/-- The point rW and cW produce for the cell (1, 0). -/
def ptW2 : OutPoint Nat := ⟨(cW 1 0).1, (cW 1 0).2, 7, corner_str 0 0⟩

/-! ## Theorems -/

/-- Claim C3: get_tile_name returns the name of the 1°×1° tile containing
the point, named by its southwest corner (the floor of each coordinate),
and get_tile_name 37.5 (-122.3) = "N37W123". -/
theorem get_tile_name_southwest_corner :
    (∀ lat lon : ℚ,
      get_tile_name lat lon = tileNameOfCell ⌊lat⌋ ⌊lon⌋ ∧
      ((⌊lat⌋ : ℚ) ≤ lat ∧ lat < (⌊lat⌋ : ℚ) + 1) ∧
      ((⌊lon⌋ : ℚ) ≤ lon ∧ lon < (⌊lon⌋ : ℚ) + 1)) ∧
    get_tile_name (75/2) (-1223/10) = "N37W123" := by
  have hmain : ∀ lat lon : ℚ, get_tile_name lat lon = tileNameOfCell ⌊lat⌋ ⌊lon⌋ := by
    intro lat lon
    have h1 : (if 0 ≤ lat then "N" else "S") = (if 0 ≤ ⌊lat⌋ then "N" else "S") := by
      by_cases h : 0 ≤ lat
      · rw [if_pos h, if_pos (Int.floor_nonneg.mpr h)]
      · rw [if_neg h, if_neg (fun hc => h (Int.floor_nonneg.mp hc))]
    have h2 : (if 0 ≤ lon then "E" else "W") = (if 0 ≤ ⌊lon⌋ then "E" else "W") := by
      by_cases h : 0 ≤ lon
      · rw [if_pos h, if_pos (Int.floor_nonneg.mpr h)]
      · rw [if_neg h, if_neg (fun hc => h (Int.floor_nonneg.mp hc))]
    simp only [get_tile_name, tileNameOfCell, h1, h2]
  refine ⟨fun lat lon => ⟨hmain lat lon,
      ⟨Int.floor_le lat, Int.lt_floor_add_one lat⟩,
      ⟨Int.floor_le lon, Int.lt_floor_add_one lon⟩⟩, ?_⟩
  rw [hmain (75/2) (-1223/10),
    show ⌊(75:ℚ)/2⌋ = 37 by norm_num [Int.floor_eq_iff],
    show ⌊(-1223:ℚ)/10⌋ = -123 by norm_num [Int.floor_eq_iff]]
  decide

/-- Claim C9: verify_terrain reconstructs exactly the folder path the
converter writes to: its two local format_val branches are extensionally
format_coord_val, and for every four bounding coordinates its folder name
and shapefile path equal the converter's. -/
theorem verify_folder_matches_converter :
    ∀ (minLon maxLon minLat maxLat : ℚ),
      (∀ v : ℚ, ∀ b : Bool, format_val_newBranch v b = format_coord_val v b) ∧
      (∀ v : ℚ, ∀ b : Bool, format_val_oldBranch v b = format_coord_val v b) ∧
      verifyFolderName minLon maxLon minLat maxLat =
        folder_name minLat minLon maxLat maxLon ∧
      verifyTargetShp minLon maxLon minLat maxLat =
        converterOutShp minLat minLon maxLat maxLon := by
  intro a b c d
  have hfold : verifyFolderName a b c d = folder_name c a d b := by
    unfold verifyFolderName
    split <;> rfl
  refine ⟨fun v bl => rfl, fun v bl => rfl, hfold, ?_⟩
  unfold verifyTargetShp converterOutShp
  rw [hfold]

/-- Claim C10: extract_tile_task is caching and idempotent: a cache hit
returns the expected path without opening the archive or touching the
scratch directory, and a second run after any successful run returns the
same path, leaves the scratch directory unchanged, and does not open the
archive. -/
theorem extract_task_caching :
    ∀ (ce : String → String → Bool) (fs : String → Bool) (t : ExtractTask),
      (fs (joinPath t.temp_dir t.target_file) = true →
        extract_tile_task_run ce fs t =
          ⟨some (joinPath t.temp_dir t.target_file), fs, false⟩) ∧
      (∀ (p : String) (fs1 : String → Bool) (b : Bool),
        extract_tile_task_run ce fs t = ⟨some p, fs1, b⟩ →
        extract_tile_task_run ce fs1 t = ⟨some p, fs1, false⟩) := by
  intro ce fs t
  constructor
  · intro h
    simp only [extract_tile_task_run, h, if_true]
  · intro p fs1 b h
    by_cases hfs : fs (joinPath t.temp_dir t.target_file) = true
    · simp only [extract_tile_task_run, hfs, if_true, RunOutcome.mk.injEq,
        Option.some.injEq] at h
      obtain ⟨hp, hfs1, hb⟩ := h
      subst hp; subst hfs1
      simp only [extract_tile_task_run, hfs, if_true]
    · by_cases hce : ce t.zip_path t.target_file = true
      · simp only [extract_tile_task_run, hfs, hce, if_true, if_false,
          Bool.false_eq_true, RunOutcome.mk.injEq, Option.some.injEq] at h
        obtain ⟨hp, hfs1, hb⟩ := h
        subst hp; subst hfs1
        have hhit : (fun q => q == joinPath t.temp_dir t.target_file || fs q)
            (joinPath t.temp_dir t.target_file) = true := by
          simp
        simp only [extract_tile_task_run, hhit, if_true]
      · exfalso
        simp only [extract_tile_task_run, hfs, hce, Bool.false_eq_true,
          if_false, RunOutcome.mk.injEq] at h
        exact Option.noConfusion h.1

/-- Witness for claim C10 at a concrete environment: a successful first
run followed by a cache-hitting second run. -/
theorem extract_task_caching_witness :
    extract_tile_task_run ceW fsW taskW =
      ⟨some (joinPath taskW.temp_dir taskW.target_file), fs1W, true⟩ ∧
    extract_tile_task_run ceW fs1W taskW =
      ⟨some (joinPath taskW.temp_dir taskW.target_file), fs1W, false⟩ := by
  refine ⟨rfl, ?_⟩
  exact (extract_task_caching ceW fsW taskW).2
    (joinPath taskW.temp_dir taskW.target_file) fs1W true rfl

/-- A successful extract_tile_task result is always the expected path
temp_dir/target_file. -/
theorem extract_tile_task_some (env : ExtractEnv) (t : ExtractTask) (x : String)
    (h : extract_tile_task env t = some x) : x = joinPath t.temp_dir t.target_file := by
  unfold extract_tile_task at h
  by_cases h1 : env.fileExists (joinPath t.temp_dir t.target_file) = true
  · simp only [h1, if_true, Option.some.injEq] at h
    exact h.symm
  · by_cases h2 : env.extractOk t.zip_path t.target_file = true
    · simp only [h1, h2, if_true, if_false, Bool.false_eq_true, Option.some.injEq] at h
      exact h.symm
    · simp only [h1, h2, Bool.false_eq_true, if_false] at h
      exact Option.noConfusion h

/-- Claim C7: a task whose extraction raises (and whose file is not
already present) yields None; the mosaic list is exactly the expected
paths of the succeeding tasks, in order, unaffected by the failing ones;
and the run aborts before merging exactly when every task fails. -/
theorem extraction_skip_and_abort :
    ∀ (env : ExtractEnv) (tasks : List ExtractTask),
      (∀ t : ExtractTask,
        env.fileExists (joinPath t.temp_dir t.target_file) = false →
        env.extractOk t.zip_path t.target_file = false →
        extract_tile_task env t = none) ∧
      srcFilesToMosaic env tasks =
        (tasks.filter (fun t => (extract_tile_task env t).isSome)).map
          (fun t => joinPath t.temp_dir t.target_file) ∧
      (abortsBeforeMerge env tasks = true ↔
        ∀ t ∈ tasks, extract_tile_task env t = none) := by
  intro env tasks
  have hnone : ∀ t : ExtractTask,
      env.fileExists (joinPath t.temp_dir t.target_file) = false →
      env.extractOk t.zip_path t.target_file = false →
      extract_tile_task env t = none := by
    intro t h1 h2
    unfold extract_tile_task
    simp only [h1, h2, Bool.false_eq_true, if_false]
  have hsrc : srcFilesToMosaic env tasks =
      (tasks.filter (fun t => (extract_tile_task env t).isSome)).map
        (fun t => joinPath t.temp_dir t.target_file) := by
    induction tasks with
    | nil => rfl
    | cons t ts ih =>
      unfold srcFilesToMosaic extractionResults at ih ⊢
      simp only [List.map_cons, List.filterMap_cons, List.filter_cons]
      cases h : extract_tile_task env t with
      | none => simp only [h, id_eq, Option.isSome_none, Bool.false_eq_true, if_false, ih]
      | some x =>
        have hx := extract_tile_task_some env t x h
        subst hx
        simp only [h, id_eq, Option.isSome_some, if_true, List.map_cons, ih]
  refine ⟨hnone, hsrc, ?_⟩
  unfold abortsBeforeMerge
  rw [hsrc, List.isEmpty_iff, List.map_eq_nil_iff, List.filter_eq_nil_iff]
  constructor
  · intro h t ht
    have := h t ht
    rwa [Option.not_isSome_iff_eq_none] at this
  · intro h t ht
    rw [Option.not_isSome_iff_eq_none]
    exact h t ht

/-- Witness for claim C7 at a concrete environment where extraction
raises for the single task: it yields None and the run aborts. -/
theorem extraction_skip_and_abort_witness :
    (envW.fileExists (joinPath taskW.temp_dir taskW.target_file) = false ∧
      envW.extractOk taskW.zip_path taskW.target_file = false ∧
      extract_tile_task envW taskW = none) ∧
    abortsBeforeMerge envW [ taskW ] = true := by
  constructor
  · exact ⟨rfl, rfl, (extraction_skip_and_abort envW [ taskW ]).1 taskW rfl rfl⟩
  · exact (extraction_skip_and_abort envW [ taskW ]).2.2.mpr
      (fun t ht => by
        rw [List.mem_singleton] at ht
        subst ht
        exact (extraction_skip_and_abort envW [ taskW ]).1 taskW rfl rfl)

/-- Membership in a row-major grid flattening. -/
theorem mem_grid_map {α : Type} (h w : Nat) (g : Nat → Nat → α) (x : α) :
    x ∈ (List.range h).flatMap (fun i => (List.range w).map (g i)) ↔
      ∃ i j, i < h ∧ j < w ∧ x = g i j := by
  simp only [List.mem_flatMap, List.mem_map, List.mem_range]
  constructor
  · rintro ⟨i, hi, j, hj, rfl⟩
    exact ⟨i, j, hi, hj, rfl⟩
  · rintro ⟨i, j, hi, hj, rfl⟩
    exact ⟨i, hi, j, hj, rfl⟩

/-- A row-major grid flattening of an injective cell map has no
duplicates. -/
theorem nodup_grid_map {α : Type} (h w : Nat) (g : Nat → Nat → α)
    (hg : ∀ i1 j1 i2 j2, g i1 j1 = g i2 j2 → i1 = i2 ∧ j1 = j2) :
    ((List.range h).flatMap (fun i => (List.range w).map (g i))).Nodup := by
  rw [List.nodup_flatMap]
  constructor
  · intro i _
    exact List.Nodup.map (fun a b hab => (hg i a i b hab).2) (List.nodup_range w)
  · refine (List.nodup_range h).imp ?_
    intro i1 i2 hne x hx1 hx2
    obtain ⟨j1, _, rfl⟩ := List.mem_map.mp hx1
    obtain ⟨j2, _, heq⟩ := List.mem_map.mp hx2
    exact hne (hg i2 j2 i1 j1 heq).1.symm

/-- The flattened sample list never repeats a row/column pair. -/
theorem samplesList_nodup (r : Raster) (s : Nat) : (samplesList r s).Nodup := by
  unfold samplesList
  split
  next hs =>
    apply nodup_grid_map
    intro i1 j1 i2 j2 heq
    simp only [Prod.mk.injEq] at heq
    obtain ⟨h1, h2, _⟩ := heq
    exact ⟨Nat.eq_of_mul_eq_mul_right (by omega) h1,
      Nat.eq_of_mul_eq_mul_right (by omega) h2⟩
  next =>
    apply nodup_grid_map
    intro i1 j1 i2 j2 heq
    simp only [Prod.mk.injEq] at heq
    exact ⟨heq.1, heq.2.1⟩

/-- Claim C1: every produced point has elevation different from -32768;
a flattened (possibly downsampled) cell is kept by the filter exactly when
its value differs from -32768; the sample list and the filtered list have
no duplicates, so every surviving cell yields exactly one point; and the
point list has one point per surviving cell. -/
theorem nodata_filter_exact :
    ∀ {α : Type} (coordOf : Nat → Nat → α × α) (r : Raster) (s : Nat)
      (minLat minLon : ℚ),
      (∀ pt ∈ mkPoints coordOf r s minLat minLon, pt.elevation ≠ -32768) ∧
      (∀ p : Nat × Nat × Int,
        p ∈ validPoints r s ↔ p ∈ samplesList r s ∧ p.2.2 ≠ -32768) ∧
      (samplesList r s).Nodup ∧ (validPoints r s).Nodup ∧
      (mkPoints coordOf r s minLat minLon).length = (validPoints r s).length := by
  intro α coordOf r s mla mlo
  have hiff : ∀ p : Nat × Nat × Int,
      p ∈ validPoints r s ↔ p ∈ samplesList r s ∧ p.2.2 ≠ -32768 := by
    intro p
    unfold validPoints
    rw [List.mem_filter, bne_iff_ne]
    exact Iff.rfl
  refine ⟨?_, hiff, samplesList_nodup r s,
    (samplesList_nodup r s).filter _, by simp [mkPoints]⟩
  intro pt hpt
  obtain ⟨p, hp, rfl⟩ := List.mem_map.mp hpt
  exact ((hiff p).mp hp).2

/-- Witness for claim C1: the cell (0, 1) of the concrete raster rW
survives the filter and its point's elevation is not -32768. -/
theorem nodata_filter_exact_witness :
    ptW ∈ mkPoints cW rW 1 0 0 ∧ ptW.elevation ≠ -32768 := by
  have hmem : ptW ∈ mkPoints cW rW 1 0 0 := by
    unfold mkPoints
    exact List.mem_map.mpr ⟨(0, 1, 7), by decide, rfl⟩
  exact ⟨hmem, (nodata_filter_exact cW rW 1 0 0).1 ptW hmem⟩

/-- An index is below the length of a NumPy `[::s]` slice exactly when the
corresponding original index is in range. -/
theorem lt_downLen_iff (n s a : Nat) (hs : 0 < s) : a < downLen n s ↔ a * s < n := by
  unfold downLen
  rw [Nat.lt_iff_add_one_le, Nat.le_div_iff_mul_le hs, add_mul, one_mul]
  omega

/-- Claim C2: for step s > 1 the kept samples are exactly the cells of the
clipped raster whose row and column indices are both divisible by s,
carried with their original (pre-downsampling) indices and values; for
step 1 every cell is kept, so step 1 is the identity on the sample set. -/
theorem downsample_stride_exact :
    ∀ (r : Raster) (s : Nat),
      (1 < s → ∀ (i j : Nat) (v : Int),
        ((i, j, v) ∈ samplesList r s ↔
          i < r.height ∧ j < r.width ∧ s ∣ i ∧ s ∣ j ∧ v = r.val i j)) ∧
      (∀ (i j : Nat) (v : Int),
        ((i, j, v) ∈ samplesList r 1 ↔ i < r.height ∧ j < r.width ∧ v = r.val i j)) := by
  intro r s
  constructor
  · intro hs i j v
    unfold samplesList
    rw [if_pos hs, mem_grid_map]
    constructor
    · rintro ⟨a, b, ha, hb, heq⟩
      simp only [Prod.mk.injEq] at heq
      obtain ⟨rfl, rfl, rfl⟩ := heq
      rw [lt_downLen_iff _ _ _ (by omega)] at ha hb
      exact ⟨ha, hb, ⟨a, mul_comm a s⟩, ⟨b, mul_comm b s⟩, rfl⟩
    · rintro ⟨hi, hj, ⟨a, rfl⟩, ⟨b, rfl⟩, rfl⟩
      refine ⟨a, b, ?_, ?_, ?_⟩
      · rw [lt_downLen_iff _ _ _ (by omega), mul_comm]
        exact hi
      · rw [lt_downLen_iff _ _ _ (by omega), mul_comm]
        exact hj
      · simp only [Prod.mk.injEq, mul_comm a s, mul_comm b s]
  · intro i j v
    unfold samplesList
    rw [if_neg (by omega), mem_grid_map]
    constructor
    · rintro ⟨a, b, ha, hb, heq⟩
      simp only [Prod.mk.injEq] at heq
      obtain ⟨rfl, rfl, rfl⟩ := heq
      exact ⟨ha, hb, rfl⟩
    · rintro ⟨hi, hj, rfl⟩
      exact ⟨i, j, hi, hj, rfl⟩

/-- Witness for claim C2: the sample characterization at step 2 on the
concrete raster rW2, at row 2, column 0. -/
theorem downsample_stride_exact_witness :
    1 < 2 ∧
    (((2, 0, (2:Int)) ∈ samplesList rW2 2) ↔
      (2 < rW2.height ∧ 0 < rW2.width ∧ 2 ∣ 2 ∧ 2 ∣ 0 ∧ (2:Int) = rW2.val 2 0)) := by
  exact ⟨by omega, (downsample_stride_exact rW2 2).1 (by omega) 2 0 2⟩

/-- Membership in the embedded Python integer range from a to b. -/
theorem mem_intRange (a b k : ℤ) : k ∈ intRange a b ↔ a ≤ k ∧ k ≤ b := by
  unfold intRange
  simp only [List.mem_map, List.mem_range]
  constructor
  · rintro ⟨m, hm, rfl⟩
    omega
  · rintro ⟨h1, h2⟩
    exact ⟨(k - a).toNat, by omega, by omega⟩

/-- For a nonempty closed interval, the floors between floor(lo) and
floor(hi) are exactly the 1-degree cells the interval meets. -/
theorem floor_cell_meets (a b : ℚ) (hab : a ≤ b) (k : ℤ) :
    cellMeetsBox a b k ↔ ⌊a⌋ ≤ k ∧ k ≤ ⌊b⌋ := by
  constructor
  · rintro ⟨x, h1, h2, rfl⟩
    exact ⟨Int.floor_le_floor h1, Int.floor_le_floor h2⟩
  · rintro ⟨h1, h2⟩
    by_cases hak : a ≤ (k : ℚ)
    · refine ⟨(k : ℚ), hak, ?_, Int.floor_intCast k⟩
      calc (k : ℚ) ≤ (⌊b⌋ : ℚ) := by exact_mod_cast h2
        _ ≤ b := Int.floor_le b
    · push_neg at hak
      refine ⟨a, le_refl a, hab, ?_⟩
      have hk : k ≤ ⌊a⌋ := Int.le_floor.mpr (le_of_lt hak)
      omega

/-- The embedded integer range is strictly increasing. -/
theorem intRange_pairwise (a b : ℤ) : (intRange a b).Pairwise (· < ·) := by
  unfold intRange
  exact List.Pairwise.map _ (fun x y hxy => by omega) (List.pairwise_lt_range _)

/-- The enumerated tile cells are in strictly increasing latitude-major
order. -/
theorem tileCells_pairwise (minLat maxLat minLon maxLon : ℚ) :
    (tileCells minLat maxLat minLon maxLon).Pairwise cellBefore := by
  unfold tileCells
  rw [List.pairwise_flatMap]
  constructor
  · intro la _
    exact List.Pairwise.map _ (fun x y hxy => Or.inr ⟨rfl, hxy⟩)
      (intRange_pairwise _ _)
  · refine (intRange_pairwise _ _).imp ?_
    intro la1 la2 hlt x hx y hy
    obtain ⟨lo1, _, rfl⟩ := List.mem_map.mp hx
    obtain ⟨lo2, _, rfl⟩ := List.mem_map.mp hy
    exact Or.inl hlt

/-- No tile cell is enumerated twice. -/
theorem tileCells_nodup (minLat maxLat minLon maxLon : ℚ) :
    (tileCells minLat maxLat minLon maxLon).Nodup := by
  refine (tileCells_pairwise minLat maxLat minLon maxLon).imp ?_
  intro p q hpq heq
  subst heq
  rcases hpq with h | ⟨_, h⟩ <;> exact lt_irrefl _ h

/-- Claim C4: for a nonempty bounding box, the tile loops enumerate
exactly the integer cells between the floors of the bounds, i.e. exactly
the 1-degree cells meeting the box, each once, in latitude-major order. -/
theorem tile_discovery_exact :
    ∀ (minLat maxLat minLon maxLon : ℚ), minLat ≤ maxLat → minLon ≤ maxLon →
      (∀ c : ℤ × ℤ, c ∈ tileCells minLat maxLat minLon maxLon ↔
        cellMeetsBox minLat maxLat c.1 ∧ cellMeetsBox minLon maxLon c.2) ∧
      (tileCells minLat maxLat minLon maxLon).Pairwise cellBefore ∧
      (tileCells minLat maxLat minLon maxLon).Nodup := by
  intro a b c d hab hcd
  refine ⟨?_, tileCells_pairwise a b c d, tileCells_nodup a b c d⟩
  intro p
  unfold tileCells
  rw [List.mem_flatMap]
  constructor
  · rintro ⟨la, hla, hp⟩
    obtain ⟨lo, hlo, rfl⟩ := List.mem_map.mp hp
    rw [mem_intRange] at hla hlo
    exact ⟨(floor_cell_meets a b hab _).mpr hla, (floor_cell_meets c d hcd _).mpr hlo⟩
  · rintro ⟨h1, h2⟩
    have g1 := (floor_cell_meets a b hab _).mp h1
    have g2 := (floor_cell_meets c d hcd _).mp h2
    exact ⟨p.1, (mem_intRange _ _ _).mpr g1,
      List.mem_map.mpr ⟨p.2, (mem_intRange _ _ _).mpr g2, rfl⟩⟩

/-- Witness for claim C4 on the concrete box [0.5, 1.5] × [0, 0]. -/
theorem tile_discovery_exact_witness :
    ((1:ℚ)/2 ≤ 3/2 ∧ (0:ℚ) ≤ 0) ∧ (tileCells (1/2) (3/2) 0 0).Nodup := by
  refine ⟨⟨by norm_num, le_refl 0⟩, ?_⟩
  exact (tile_discovery_exact (1/2) (3/2) 0 0 (by norm_num) (le_refl 0)).2.2

/-- The head of a twice-filtered list exists exactly when some element
passes both filters. -/
theorem head_filter_isSome {α : Type} (p q : α → Bool) (l : List α) :
    ((l.filter p).filter q).head?.isSome = l.any (fun a => p a && q a) := by
  rw [Bool.eq_iff_iff, List.head?_isSome, List.any_eq_true]
  constructor
  · intro hne
    rw [Ne, List.filter_eq_nil_iff] at hne
    push_neg at hne
    obtain ⟨a, ha, hq⟩ := hne
    have h2 := List.mem_filter.mp ha
    exact ⟨a, h2.1, by simp [h2.2, hq]⟩
  · rintro ⟨a, ha, hpq⟩
    intro hc
    have h1 : p a = true ∧ q a = true := by
      revert hpq
      cases hp : p a <;> cases hqv : q a <;> simp
    have := List.filter_eq_nil_iff.mp hc a (List.mem_filter.mpr ⟨ha, h1.1⟩)
    exact this h1.2

/-- Counterexample to claim C5 as stated: an archive whose only member is
a .num file yields no data member, hence no extraction task and no
points. -/
theorem num_only_archive_skipped :
    selectDataMember [ "N37W123.num" ] = none ∧
    isNumMember "N37W123.num" = true := by
  exact ⟨rfl, rfl⟩

/-- Claim C5 as amended: an archive contributes a data member exactly when
it has a .hgt or .tif member that is not a '._' metadata file, and any
selected member is such a file; .num members are never selected. -/
theorem accepted_members_hgt_tif :
    ∀ (all_files : List String),
      (selectDataMember all_files).isSome =
        all_files.any (fun f => isElevMember f && !isMetaFile f) ∧
      (∀ g, selectDataMember all_files = some g →
        isElevMember g = true ∧ isMetaFile g = false ∧ g ∈ all_files) := by
  intro l
  refine ⟨head_filter_isSome _ _ l, ?_⟩
  intro g hg
  unfold selectDataMember at hg
  have hmem : g ∈ (l.filter (fun f => isElevMember f)).filter (fun f => !isMetaFile f) :=
    List.mem_of_mem_head? (Option.mem_def.mpr hg)
  have h2 := List.mem_filter.mp hmem
  have h3 := List.mem_filter.mp h2.1
  refine ⟨h3.2, ?_, List.mem_of_mem_filter h2.1⟩
  have hb := h2.2
  revert hb
  cases isMetaFile g <;> simp

/-- Witness for the amended claim C5: a plain .hgt member is selected. -/
theorem accepted_members_hgt_tif_witness :
    selectDataMember [ "N37W123.hgt" ] = some "N37W123.hgt" ∧
    isElevMember "N37W123.hgt" = true ∧ isMetaFile "N37W123.hgt" = false ∧
    "N37W123.hgt" ∈ [ "N37W123.hgt" ] := by
  refine ⟨rfl, ?_⟩
  exact (accepted_members_hgt_tif [ "N37W123.hgt" ]).2 "N37W123.hgt" rfl

/-- Claim C6: find_tile_zip returns None exactly when no non-metadata
match exists; any returned path is a non-metadata match; whenever some
non-metadata match contains '.hgt.zip' (case-insensitively) the returned
path does too; and when none does, the first non-metadata match is
returned. -/
theorem find_tile_zip_spec :
    ∀ (gl : List String),
      (find_tile_zip gl = none ↔ nonMetaMatches gl = []) ∧
      (∀ g, find_tile_zip gl = some g → g ∈ nonMetaMatches gl) ∧
      ((∃ f ∈ nonMetaMatches gl, hasHgtZip f = true) →
        ∀ g, find_tile_zip gl = some g → hasHgtZip g = true) ∧
      ((∀ f ∈ nonMetaMatches gl, hasHgtZip f = false) →
        find_tile_zip gl = (nonMetaMatches gl).head?) := by
  intro gl
  by_cases he : (nonMetaMatches gl).isEmpty = true
  · have hnil : nonMetaMatches gl = [] := List.isEmpty_iff.mp he
    have hfind : find_tile_zip gl = none := by
      unfold find_tile_zip
      rw [if_pos he]
    refine ⟨by rw [hfind, hnil]; exact ⟨fun _ => rfl, fun _ => rfl⟩, ?_, ?_, ?_⟩
    · intro g hg
      rw [hfind] at hg
      exact Option.noConfusion hg
    · rintro ⟨f, hf, _⟩
      rw [hnil] at hf
      exact absurd hf (List.not_mem_nil f)
    · intro _
      rw [hfind, hnil]
      rfl
  · have hne : nonMetaMatches gl ≠ [] := by
      intro hc
      rw [hc] at he
      exact he rfl
    cases hh : ((nonMetaMatches gl).filter (fun f => hasHgtZip f)).head? with
    | some g0 =>
      have hfind : find_tile_zip gl = some g0 := by
        unfold find_tile_zip
        rw [if_neg he, hh]
      have hg0mem : g0 ∈ (nonMetaMatches gl).filter (fun f => hasHgtZip f) :=
        List.mem_of_mem_head? (Option.mem_def.mpr hh)
      refine ⟨?_, ?_, ?_, ?_⟩
      · rw [hfind]
        constructor
        · intro hc
          exact Option.noConfusion hc
        · intro hc
          exact absurd hc hne
      · intro g hg
        rw [hfind, Option.some.injEq] at hg
        subst hg
        exact List.mem_of_mem_filter hg0mem
      · intro _ g hg
        rw [hfind, Option.some.injEq] at hg
        subst hg
        exact (List.mem_filter.mp hg0mem).2
      · intro hall
        exfalso
        have := hall g0 (List.mem_of_mem_filter hg0mem)
        rw [(List.mem_filter.mp hg0mem).2] at this
        exact Bool.noConfusion this
    | none =>
      have hfind : find_tile_zip gl = (nonMetaMatches gl).head? := by
        unfold find_tile_zip
        rw [if_neg he, hh]
      have hnofilt : (nonMetaMatches gl).filter (fun f => hasHgtZip f) = [] :=
        List.head?_eq_none_iff.mp hh
      refine ⟨?_, ?_, ?_, fun _ => hfind⟩
      · rw [hfind, List.head?_eq_none_iff]
      · intro g hg
        rw [hfind] at hg
        exact List.mem_of_mem_head? (Option.mem_def.mpr hg)
      · rintro ⟨f, hf, hhgt⟩ g hg
        exfalso
        have := List.filter_eq_nil_iff.mp hnofilt f hf
        exact this hhgt

/-- Witness for claim C6: among one metadata file, one non-elevation
archive and one elevation archive, the elevation archive is returned. -/
theorem find_tile_zip_spec_witness :
    (∃ f ∈ nonMetaMatches glW, hasHgtZip f = true) ∧
    find_tile_zip glW = some "earthdata/N37W123.SRTMGL1.hgt.zip" ∧
    hasHgtZip "earthdata/N37W123.SRTMGL1.hgt.zip" = true := by
  have hex : ∃ f ∈ nonMetaMatches glW, hasHgtZip f = true :=
    ⟨ "earthdata/N37W123.SRTMGL1.hgt.zip", by decide, by decide⟩
  refine ⟨hex, rfl, ?_⟩
  exact (find_tile_zip_spec glW).2.2.1 hex "earthdata/N37W123.SRTMGL1.hgt.zip" rfl

/-- Each digit character is between '0' and '9'. -/
theorem digitCh_digit (n : Nat) (h : n < 10) : '0' ≤ digitCh n ∧ digitCh n ≤ '9' := by
  interval_cases n <;> exact ⟨by decide, by decide⟩

/-- Every character emitted by the digit renderer is a decimal digit. -/
theorem natDigitsAux_digits (fuel : Nat) :
    ∀ (n : Nat), ∀ c ∈ natDigitsAux fuel n, '0' ≤ c ∧ c ≤ '9' := by
  induction fuel with
  | zero =>
    intro n c hc
    simp [natDigitsAux] at hc
  | succ f ih =>
    intro n c hc
    simp only [natDigitsAux] at hc
    by_cases h : n < 10
    · rw [if_pos h] at hc
      simp only [List.mem_singleton] at hc
      subst hc
      exact digitCh_digit n h
    · rw [if_neg h] at hc
      rcases List.mem_append.mp hc with h1 | h2
      · exact ih (n / 10) c h1
      · simp only [List.mem_singleton] at h2
        subst h2
        exact digitCh_digit (n % 10) (Nat.mod_lt n (by omega))

/-- Every character of a rendered natural number is a decimal digit. -/
theorem natStr_digits (m : Nat) : ∀ c ∈ (natStr m).data, '0' ≤ c ∧ c ≤ '9' := by
  intro c hc
  exact natDigitsAux_digits (m + 1) m c hc

/-- A number below the fuel renders in one digit when below 10. -/
theorem natDigitsAux_small (f k : Nat) (h : k < 10) :
    natDigitsAux (f + 1) k = [digitCh k] := by
  simp [natDigitsAux, h]

/-- A number below 100 renders in at most two digits. -/
theorem natDigits_length_le_two (n : Nat) (h : n < 100) : (natDigits n).length ≤ 2 := by
  unfold natDigits
  by_cases h1 : n < 10
  · rw [natDigitsAux_small n n h1]
    simp
  · obtain ⟨m, rfl⟩ : ∃ m, n = m + 1 := ⟨n - 1, by omega⟩
    rw [show natDigitsAux (m + 1 + 1) (m + 1) =
        natDigitsAux (m + 1) ((m + 1) / 10) ++ [digitCh ((m + 1) % 10)] by
      simp [natDigitsAux, h1]]
    rw [natDigitsAux_small m ((m + 1) / 10) (by omega)]
    simp

/-- The length of a zero-padded string. -/
theorem padZeros_length (k : Nat) (s : String) :
    (padZeros k s).data.length = max k s.data.length := by
  show (List.replicate (k - s.data.length) '0' ++ s.data).length = max k s.data.length
  rw [List.length_append, List.length_replicate]
  omega

/-- Zero-padding a digit string yields a digit string. -/
theorem padZeros_digits (k : Nat) (s : String)
    (hs : ∀ c ∈ s.data, '0' ≤ c ∧ c ≤ '9') :
    ∀ c ∈ (padZeros k s).data, '0' ≤ c ∧ c ≤ '9' := by
  intro c hc
  rcases List.mem_append.mp hc with h1 | h2
  · have hz := List.eq_of_mem_replicate h1
    subst hz
    exact ⟨by decide, by decide⟩
  · exact hs c h2

/-- Half-even rounding of a nonnegative value is nonnegative. -/
theorem rndHalfEven_nonneg (x : ℚ) (hx : 0 ≤ x) : 0 ≤ rndHalfEven x := by
  unfold rndHalfEven
  have h0 : 0 ≤ ⌊x⌋ := Int.floor_nonneg.mpr hx
  split_ifs <;> omega

/-- Half-even rounding moves a value by at most one half. -/
theorem rndHalfEven_close (x : ℚ) : |((rndHalfEven x : ℤ) : ℚ) - x| ≤ 1/2 := by
  have hfl : (⌊x⌋ : ℚ) ≤ x := Int.floor_le x
  have hfu : x < ⌊x⌋ + 1 := Int.lt_floor_add_one x
  unfold rndHalfEven
  rw [abs_le]
  split_ifs with hA hB hC
  · constructor <;> linarith
  · push_cast
    constructor <;> linarith
  · constructor <;> linarith [not_lt.mp hA, not_lt.mp hB]
  · push_cast
    constructor <;> linarith [not_lt.mp hA, not_lt.mp hB]

/-- Claim C8: the output folder name is built purely from the four
formatted bounding coordinates as min-corner, '_', max-corner; the 'city'
label of every output point equals the formatted minimum corner; and
format_coord_val renders the hemisphere letter followed by the absolute
value, as a plain digit string when the value is whole and otherwise as a
rounded fixed-point numeral with exactly two digits after the dot (the
rounded integer n beneath it staying within half a hundredth of the
value). -/
theorem folder_and_city_format :
    ∀ (minLat minLon maxLat maxLon : ℚ) {α : Type}
      (coordOf : Nat → Nat → α × α) (r : Raster) (s : Nat),
      folder_name minLat minLon maxLat maxLon =
        (format_coord_val minLat true ++ format_coord_val minLon false) ++ "_" ++
          (format_coord_val maxLat true ++ format_coord_val maxLon false) ∧
      (∀ pt ∈ mkPoints coordOf r s minLat minLon,
        pt.city = format_coord_val minLat true ++ format_coord_val minLon false) ∧
      (∀ v : ℚ, ∀ b : Bool,
        ((|v|).den = 1 →
          format_coord_val v b = dirStr v b ++ natStr (|v|).num.toNat ∧
          ∀ c ∈ (natStr (|v|).num.toNat).data, '0' ≤ c ∧ c ≤ '9') ∧
        ((|v|).den ≠ 1 →
          ∃ n : ℕ,
            format_coord_val v b =
              dirStr v b ++ (natStr (n / 100) ++ "." ++ padZeros 2 (natStr (n % 100))) ∧
            (padZeros 2 (natStr (n % 100))).data.length = 2 ∧
            (∀ c ∈ (natStr (n / 100)).data, '0' ≤ c ∧ c ≤ '9') ∧
            (∀ c ∈ (padZeros 2 (natStr (n % 100))).data, '0' ≤ c ∧ c ≤ '9') ∧
            abs ((n : ℚ) - 100 * |v|) ≤ 1/2)) := by
  intro mla mlo mxa mxo α coordOf r s
  refine ⟨rfl, ?_, ?_⟩
  · intro pt hpt
    obtain ⟨p, hp, rfl⟩ := List.mem_map.mp hpt
    rfl
  · intro v b
    constructor
    · intro hden
      unfold format_coord_val
      rw [if_pos hden]
      exact ⟨rfl, natStr_digits _⟩
    · intro hden
      unfold format_coord_val
      rw [if_neg hden]
      refine ⟨(rndHalfEven (100 * |v|)).toNat, rfl, ?_, natStr_digits _,
        padZeros_digits _ _ (natStr_digits _), ?_⟩
      · rw [padZeros_length]
        have hlt : (rndHalfEven (100 * |v|)).toNat % 100 < 100 :=
          Nat.mod_lt _ (by omega)
        have hlen := natDigits_length_le_two _ hlt
        show max 2 (natDigits ((rndHalfEven (100 * |v|)).toNat % 100)).length = 2
        omega
      · have hx : (0:ℚ) ≤ 100 * |v| := by positivity
        have hnn := rndHalfEven_nonneg _ hx
        have hcast : (((rndHalfEven (100 * |v|)).toNat : ℕ) : ℚ) =
            ((rndHalfEven (100 * |v|) : ℤ) : ℚ) := by
          rw [← Int.cast_natCast (R := ℚ), Int.toNat_of_nonneg hnn]
        rw [hcast]
        exact rndHalfEven_close _

/-- Witness for claim C8: a concrete point's city label, and the whole
branch of the format at value 3. -/
theorem folder_and_city_format_witness :
    (ptW2 ∈ mkPoints cW rW 1 0 0 ∧
      ptW2.city = format_coord_val 0 true ++ format_coord_val 0 false) ∧
    ((|(3:ℚ)|).den = 1 ∧
      format_coord_val 3 true = dirStr 3 true ++ natStr (|(3:ℚ)|).num.toNat) := by
  have hmem : ptW2 ∈ mkPoints cW rW 1 0 0 := by
    unfold mkPoints
    exact List.mem_map.mpr ⟨(1, 0, 7), by decide, rfl⟩
  have hden : (|(3:ℚ)|).den = 1 := by norm_num
  refine ⟨⟨hmem, (folder_and_city_format 0 0 9 9 cW rW 1).2.1 ptW2 hmem⟩, hden, ?_⟩
  exact (((folder_and_city_format 0 0 9 9 cW rW 1).2.2 3 true).1 hden).1

end Terrain
